import Mathlib

/-!
# Todo-with-go: the task store and its HTTP handlers

A shallow embedding of `internal/store/store.go` and `internal/handler/handler.go`.

* Go strings are modelled by `String` (lists of characters); every character the
  code inspects (`/`, `+`, `-`, the digits) is ASCII.
* A Go `error` is modelled by its message (`err.Error()`), because the handlers
  classify store errors by comparing that message.
* The PostgreSQL table `tasks` is modelled by the list of its rows together with
  the last value of the sequence behind `id SERIAL PRIMARY KEY`.
* What the database does during a statement is an input of the operation: it
  executes the statement, or it fails with a message (`Fault`, `QueryFault`).
* The handlers take the outcome of decoding the request body as an input, and the
  encoders of `encoding/json` for strings and tasks as a parameter (`Encoder`).
* Go `int` is 64 bits wide (`strconv.IntSize = 64`).
-/

namespace Todo

deriving instance DecidableEq for Except

/-! ## Standard library: `strings.Trim`, `strings.Split`, `strconv.Atoi` -/

/-- The errors of package `strconv`: `ErrSyntax` and `ErrRange`. -/
inductive NumError where
  | ErrSyntax
  | ErrRange
deriving DecidableEq, Repr

/-- `strings.Trim(s, "/")` on the characters of `s`: all leading and all trailing
slashes are removed. -/
def trimSlashes (s : List Char) : List Char :=
  (s.dropWhile (fun c => c == '/')).rdropWhile (fun c => c == '/')

/-- `strings.Split(s, "/")` on the characters of `s`: the pieces between the
slashes; a string without a slash (the empty one included) gives one piece. -/
def splitSlash : List Char → List (List Char)
  | [] => [[]]
  | c :: cs =>
    if c = '/' then [] :: splitSlash cs
    else
      match splitSlash cs with
      | [] => [[c]]
      | p :: ps => (c :: p) :: ps

/-- The largest `uint64`. -/
def maxUint64 : Nat := 2 ^ 64 - 1

/-- The digit loop of `strconv.ParseUint(s, 10, 64)`, with `n` the value read so
far: a character other than `0`..`9` is a syntax error; the value is multiplied
by ten and the digit added in 64-bit arithmetic, and an overflow of either step
is a range error. -/
def parseUintLoop : List Char → Nat → Except NumError Nat
  | [], n => .ok n
  | c :: cs, n =>
    if c.toNat < 48 ∨ 57 < c.toNat then .error .ErrSyntax
    else
      let d := c.toNat - 48
      if n ≥ maxUint64 / 10 + 1 then .error .ErrRange
      else
        let n10 := (n * 10) % 2 ^ 64
        let n1 := (n10 + d) % 2 ^ 64
        if n1 < n10 ∨ n1 > maxUint64 then .error .ErrRange
        else parseUintLoop cs n1

/-- `strconv.ParseUint(s, 10, 64)`: the empty string is a syntax error. -/
def ParseUint (s : List Char) : Except NumError Nat :=
  match s with
  | [] => .error .ErrSyntax
  | _ => parseUintLoop s 0

/-- `strconv.ParseInt(s, 10, 0)`: an optional sign, then `ParseUint`; the
magnitude must fit a 64-bit signed integer. A range error of `ParseUint` leaves
the magnitude at `maxUint64`, which the cutoff test rejects. -/
def ParseInt (s : List Char) : Except NumError Int :=
  match s with
  | [] => .error .ErrSyntax
  | c :: cs =>
    let neg := c = '-'
    let rest := if c = '+' ∨ c = '-' then cs else c :: cs
    match ParseUint rest with
    | .error .ErrSyntax => .error .ErrSyntax
    | r =>
      let un := match r with
        | .ok v => v
        | .error _ => maxUint64
      let cutoff : Nat := 2 ^ 63
      if ¬ neg ∧ un ≥ cutoff then .error .ErrRange
      else if neg ∧ un > cutoff then .error .ErrRange
      else .ok (if neg then - (un : Int) else (un : Int))

/-- `strconv.Atoi(s)`, which is `ParseInt(s, 10, 0)` converted to `int`. -/
def Atoi (s : String) : Except NumError Int :=
  ParseInt s.data

/-- `strconv.Itoa`: the decimal representation of an integer, a minus sign
before the digits of a negative one. -/
def decimal : Int → String
  | .ofNat m => ⟨Nat.toDigits 10 m⟩
  | .negSucc m => ⟨'-' :: Nat.toDigits 10 (m + 1)⟩

/-- One of the characters `0`..`9`. -/
def isDecimalDigit (c : Char) : Bool :=
  decide (48 ≤ c.toNat ∧ c.toNat ≤ 57)

/-- A decimal integer in the sense of `strconv`: an optional sign `+` or `-`
followed by at least one of the digits `0`..`9`. -/
def isDecimalInteger (s : List Char) : Bool :=
  match s with
  | [] => false
  | c :: cs =>
    if c = '+' ∨ c = '-' then !cs.isEmpty && cs.all isDecimalDigit
    else (c :: cs).all isDecimalDigit

/-! ## `internal/handler/handler.go`: `extractID` -/

/-- The slash-separated segments of a path after `strings.Trim(path, "/")`. -/
def pathParts (path : String) : List (List Char) :=
  splitSlash (trimSlashes path.data)

/-- `extractID` extracts the task ID from the URL path (e.g. `/tasks/123`). -/
def extractID (path : String) : Except NumError Int :=
  let parts := pathParts path
  if parts.length < 2 then .error .ErrSyntax
  else
    match parts.get? 1 with
    | some p => Atoi ⟨p⟩
    | none => .error .ErrSyntax

/-! ## `internal/store/store.go`: the data model -/

/-- A point in time as a `TIMESTAMP` column holds it (microseconds). -/
abbrev Time := Nat

/-- Task represents a single todo item. -/
structure Task where
  ID : Int
  Description : String
  Completed : Bool
  CreatedAt : Time
deriving DecidableEq, Repr

/-- A Go slice value. The nil slice (`var tasks []Task`) is a value of its own:
it has no elements, as the empty slice, but `encoding/json` writes it as `null`
and an empty non-nil slice as `[]`. -/
inductive Slice (α : Type) where
  | nil
  | mk (elems : List α)
deriving DecidableEq, Repr

namespace Slice

/-- The elements of a slice; the nil slice has none. -/
def toList {α : Type} : Slice α → List α
  | nil => []
  | mk xs => xs

/-- The builtin `len`. -/
def len {α : Type} (s : Slice α) : Nat := s.toList.length

/-- The builtin `append(s, x)`; appending to the nil slice allocates. -/
def append {α : Type} (s : Slice α) (x : α) : Slice α :=
  mk (s.toList ++ [x])

end Slice

/-! ## The database behind `*sql.DB`

The table is created by `NewStore` as
`tasks (id SERIAL PRIMARY KEY, description TEXT NOT NULL, completed BOOLEAN NOT NULL,
created_at TIMESTAMP NOT NULL)`. -/

/-- The table `tasks` (its rows, in no particular order) and `seq`, the last value
that the sequence of the `SERIAL` column handed out. -/
structure DB where
  rows : List Task
  seq : Nat
deriving DecidableEq, Repr

/-- The largest value of a `SERIAL` (32-bit) sequence. -/
def maxSerial : Nat := 2147483647

/-- A failure of the database or of the driver during one statement, with the
driver's message: `exec` before the statement took effect (the statement is not
executed), `result` after it took effect, while its result is read (`Row.Scan`,
`Result.RowsAffected`). -/
inductive Fault where
  | exec (msg : String)
  | result (msg : String)
deriving DecidableEq, Repr

/-- The value `Exec` returns next to its error; `RowsAffected` may fail. -/
structure Result where
  RowsAffected : Except String Int
deriving DecidableEq

namespace DB

/-- The effect of
`INSERT INTO tasks (description, completed, created_at) VALUES ($1, $2, $3)
RETURNING id, description, completed, created_at` on a database that works.
The id is the next value of the sequence, which is consumed even when the insert
then fails; the sequence ends at `maxSerial`; the primary key rejects an id that a
row already has. -/
def insert (db : DB) (description : String) (completed : Bool) (createdAt : Time) :
    Except String Task × DB :=
  let id := db.seq + 1
  if maxSerial < id then
    (.error "pq: nextval: reached maximum value of sequence", db)
  else if db.rows.any (fun r => r.ID = (id : Int)) then
    (.error "pq: duplicate key value violates unique constraint", { db with seq := id })
  else
    let row : Task := ⟨(id : Int), description, completed, createdAt⟩
    (.ok row, { rows := row :: db.rows, seq := id })

/-- The statement of `AddTask` (`QueryRow` of the insert, then `Scan`). -/
def insertReturning (db : DB) (description : String) (completed : Bool) (createdAt : Time)
    (fault : Option Fault) : Except String Task × DB :=
  match fault with
  | none => db.insert description completed createdAt
  | some (.exec e) => (.error e, db)
  | some (.result e) =>
    match db.insert description completed createdAt with
    | (.ok _, db1) => (.error e, db1)
    | (.error e1, db1) => (.error e1, db1)

/-- The statement of `ListTasks`:
`SELECT id, description, completed, created_at FROM tasks ORDER BY id`. -/
def selectOrderByID (db : DB) : List Task :=
  db.rows.insertionSort (fun a b => a.ID ≤ b.ID)

/-- The number of rows `WHERE id = $n` selects. -/
def matching (db : DB) (id : Int) : Nat :=
  db.rows.countP (fun r => r.ID = id)

/-- The update of one row by `UPDATE tasks SET completed = $1 WHERE id = $2`. -/
def setRow (completed : Bool) (id : Int) (r : Task) : Task :=
  if r.ID = id then { r with Completed := completed } else r

/-- The table after `UPDATE tasks SET completed = $1 WHERE id = $2`. -/
def setCompleted (db : DB) (completed : Bool) (id : Int) : DB :=
  { db with rows := db.rows.map (setRow completed id) }

/-- The table after `DELETE FROM tasks WHERE id = $1`. -/
def remove (db : DB) (id : Int) : DB :=
  { db with rows := db.rows.filter (fun r => ¬ r.ID = id) }

/-- The statement of `CompleteTask` (`Exec` of the update). -/
def updateCompleted (db : DB) (completed : Bool) (id : Int) (fault : Option Fault) :
    Except String Result × DB :=
  match fault with
  | none => (.ok { RowsAffected := .ok (db.matching id : Int) }, db.setCompleted completed id)
  | some (.exec e) => (.error e, db)
  | some (.result e) => (.ok { RowsAffected := .error e }, db.setCompleted completed id)

/-- The statement of `DeleteTask` (`Exec` of the delete). -/
def deleteByID (db : DB) (id : Int) (fault : Option Fault) : Except String Result × DB :=
  match fault with
  | none => (.ok { RowsAffected := .ok (db.matching id : Int) }, db.remove id)
  | some (.exec e) => (.error e, db)
  | some (.result e) => (.ok { RowsAffected := .error e }, db.remove id)

end DB

/-- A failure while `ListTasks` reads the table: of `Query`, of `Scan` on the row
with the given index (if there is one), or reported by `rows.Err` after the loop. -/
inductive QueryFault where
  | query (msg : String)
  | scan (row : Nat) (msg : String)
  | iter (msg : String)
deriving DecidableEq, Repr

/-! ## `internal/store/store.go`: the operations -/

namespace Store

/-- AddTask adds a new task with the given description. `now` is `time.Now()`, as
the column stores it. -/
def AddTask (s : DB) (description : String) (now : Time) (fault : Option Fault) :
    Except String Task × DB :=
  if description = "" then
    (.error "description cannot be empty", s)
  else
    match s.insertReturning description false now fault with
    | (.error err, s1) => (.error ("failed to insert task: " ++ err), s1)
    | (.ok task, s1) => (.ok task, s1)

/-- The loop `for rows.Next()` of `ListTasks`: `i` is the index of the next row and
`tasks` the slice built so far. -/
def scanRows (fault : Option QueryFault) : List Task → Nat → Slice Task →
    Except String (Slice Task)
  | [], _, tasks => .ok tasks
  | row :: rest, i, tasks =>
    match fault with
    | some (.scan j e) =>
      if j = i then .error ("failed to scan task: " ++ e)
      else scanRows fault rest (i + 1) (tasks.append row)
    | _ => scanRows fault rest (i + 1) (tasks.append row)

/-- ListTasks returns all tasks. -/
def ListTasks (s : DB) (fault : Option QueryFault) : Except String (Slice Task) :=
  match fault with
  | some (.query e) => .error ("failed to query tasks: " ++ e)
  | _ =>
    match scanRows fault s.selectOrderByID 0 Slice.nil with
    | .error e => .error e
    | .ok tasks =>
      match fault with
      | some (.iter e) => .error ("error iterating tasks: " ++ e)
      | _ => .ok tasks

/-- CompleteTask marks a task as completed by ID. -/
def CompleteTask (s : DB) (id : Int) (completed : Bool) (fault : Option Fault) :
    Except String Unit × DB :=
  match s.updateCompleted completed id fault with
  | (.error err, s1) => (.error ("failed to update task: " ++ err), s1)
  | (.ok res, s1) =>
    match res.RowsAffected with
    | .error err => (.error ("failed to check rows affected: " ++ err), s1)
    | .ok rowsAffected =>
      if rowsAffected = 0 then (.error "task not found", s1)
      else (.ok (), s1)

/-- DeleteTask removes a task by ID. -/
def DeleteTask (s : DB) (id : Int) (fault : Option Fault) : Except String Unit × DB :=
  match s.deleteByID id fault with
  | (.error err, s1) => (.error ("failed to delete task: " ++ err), s1)
  | (.ok res, s1) =>
    match res.RowsAffected with
    | .error err => (.error ("failed to check rows affected: " ++ err), s1)
    | .ok rowsAffected =>
      if rowsAffected = 0 then (.error "task not found", s1)
      else (.ok (), s1)

end Store

/-- One call of a mutating operation of the store, with the outcome of the
database during it. -/
inductive Call where
  | add (description : String) (now : Time) (fault : Option Fault)
  | complete (id : Int) (completed : Bool) (fault : Option Fault)
  | delete (id : Int) (fault : Option Fault)
deriving DecidableEq, Repr

/-- The state after one call, whatever it returned. -/
def Call.run (s : DB) : Call → DB
  | .add d now f => (Store.AddTask s d now f).2
  | .complete id c f => (Store.CompleteTask s id c f).2
  | .delete id f => (Store.DeleteTask s id f).2

/-- The state after a sequence of calls. -/
def runCalls (s : DB) (calls : List Call) : DB :=
  calls.foldl Call.run s

/-- Calls `AddTask` on each description in turn (each with its clock reading) on a
database that does not fail; gives the results of the calls and the final state. -/
def addEach : DB → List (String × Time) → List (Except String Task) × DB
  | s, [] => ([], s)
  | s, (d, now) :: rest =>
    let r := Store.AddTask s d now none
    let rs := addEach r.2 rest
    (r.1 :: rs.1, rs.2)

/-! ## `internal/handler/handler.go`: the handlers -/

/-- What the handlers need of `encoding/json` on the way out: the encoding of a
string value and of a `Task`. -/
structure Encoder where
  string : String → String
  task : Task → String

/-- An encoder that quotes a string as it is (right for the strings that need no
escape) and writes a task as the object of its id. -/
def Encoder.quoting : Encoder :=
  ⟨fun v => "\"" ++ v ++ "\"", fun t => "\x7b\"id\":" ++ toString t.ID ++ "\x7d"⟩

/-- The encoding of `map[string]string{"error": message}`. -/
def Encoder.errorObject (enc : Encoder) (message : String) : String :=
  "\x7b\"error\":" ++ enc.string message ++ "\x7d"

/-- The encoding of a `[]Task`: the nil slice is written as `null`, any other
slice as the array of its elements. -/
def Encoder.tasks (enc : Encoder) : Slice Task → String
  | .nil => "null"
  | .mk ts => "[" ++ ",".intercalate (ts.map enc.task) ++ "]"

/-- The `http.ResponseWriter` of one request: the `Content-Type` header, the status
once the header has been written, and the body written so far. -/
structure ResponseWriter where
  contentType : Option String
  status : Option Nat
  body : String
deriving DecidableEq, Repr

namespace ResponseWriter

/-- A fresh writer. -/
def new : ResponseWriter := { contentType := none, status := none, body := "" }

/-- `w.Header().Set("Content-Type", v)`; no effect once the header is written. -/
def SetContentType (w : ResponseWriter) (v : String) : ResponseWriter :=
  match w.status with
  | some _ => w
  | none => { w with contentType := some v }

/-- `w.WriteHeader(code)`; only the first call counts. -/
def WriteHeader (w : ResponseWriter) (code : Nat) : ResponseWriter :=
  match w.status with
  | some _ => w
  | none => { w with status := some code }

/-- `w.Write(data)`; writes the header with status 200 if it was not written. -/
def Write (w : ResponseWriter) (data : String) : ResponseWriter :=
  let w1 := w.WriteHeader 200
  { w1 with body := w1.body ++ data }

/-- `json.NewEncoder(w).Encode(v)`, given the encoding of `v`: the encoding and a
newline are written. -/
def Encode (w : ResponseWriter) (encoded : String) : ResponseWriter :=
  w.Write (encoded ++ "\n")

/-- The status the client receives: 200 when the handler wrote no header. -/
def code (w : ResponseWriter) : Nat := w.status.getD 200

end ResponseWriter

/-- Sends a JSON error response (`writeError`). -/
def writeError (enc : Encoder) (w : ResponseWriter) (status : Nat) (message : String) :
    ResponseWriter :=
  ((w.SetContentType "application/json").WriteHeader status).Encode (enc.errorObject message)

namespace Handler

/-- CreateTask handles POST /tasks. `decoded` is the outcome of
`json.NewDecoder(r.Body).Decode(&req)`: an error, or the `Description` of `req`
(the empty string when the body has no such field). -/
def CreateTask (enc : Encoder) (s : DB) (decoded : Except String String) (now : Time)
    (fault : Option Fault) : ResponseWriter × DB :=
  let w := ResponseWriter.new
  match decoded with
  | .error _ => (writeError enc w 400 "Invalid request body", s)
  | .ok description =>
    if description = "" then (writeError enc w 400 "Description is required", s)
    else
      match Store.AddTask s description now fault with
      | (.error err, s1) => (writeError enc w 500 err, s1)
      | (.ok task, s1) =>
        (((w.SetContentType "application/json").WriteHeader 201).Encode (enc.task task), s1)

/-- ListTasks handles GET /tasks. -/
def ListTasks (enc : Encoder) (s : DB) (fault : Option QueryFault) : ResponseWriter :=
  let w := ResponseWriter.new
  match Store.ListTasks s fault with
  | .error err => writeError enc w 500 err
  | .ok tasks => (w.SetContentType "application/json").Encode (enc.tasks tasks)

/-- UpdateTask handles PATCH /tasks/{id}. `decoded` is the outcome of
`json.NewDecoder(r.Body).Decode(&req)`: an error, or the `Completed` of `req`. -/
def UpdateTask (enc : Encoder) (s : DB) (path : String) (decoded : Except String Bool)
    (fault : Option Fault) : ResponseWriter × DB :=
  let w := ResponseWriter.new
  match extractID path with
  | .error _ => (writeError enc w 400 "Invalid task ID", s)
  | .ok id =>
    match decoded with
    | .error _ => (writeError enc w 400 "Invalid request body", s)
    | .ok completed =>
      match Store.CompleteTask s id completed fault with
      | (.error err, s1) =>
        if err = "task not found" then (writeError enc w 404 err, s1)
        else (writeError enc w 500 err, s1)
      | (.ok _, s1) => (w.WriteHeader 204, s1)

/-- DeleteTask handles DELETE /tasks/{id}. -/
def DeleteTask (enc : Encoder) (s : DB) (path : String) (fault : Option Fault) :
    ResponseWriter × DB :=
  let w := ResponseWriter.new
  match extractID path with
  | .error _ => (writeError enc w 400 "Invalid task ID", s)
  | .ok id =>
    match Store.DeleteTask s id fault with
    | (.error err, s1) =>
      if err = "task not found" then (writeError enc w 404 err, s1)
      else (writeError enc w 500 err, s1)
    | (.ok _, s1) => (w.WriteHeader 204, s1)

end Handler

/-! ## Auxiliary definitions for the proofs -/

/-- The value of a digit string read after the value `n`, without bound. -/
def digitsValue (l : List Char) (n : Nat) : Nat :=
  l.foldl (fun acc c => acc * 10 + (c.toNat - 48)) n

/-- The answer of the handlers to the result of the store. -/
def answer (enc : Encoder) (r : Except String Unit) : ResponseWriter :=
  match r with
  | .error err =>
    if err = "task not found" then writeError enc ResponseWriter.new 404 err
    else writeError enc ResponseWriter.new 500 err
  | .ok _ => ResponseWriter.new.WriteHeader 204

instance : IsTotal Task (fun a b => a.ID ≤ b.ID) := ⟨fun a b => le_total a.ID b.ID⟩

instance : IsTrans Task (fun a b => a.ID ≤ b.ID) := ⟨fun _ _ _ h1 h2 => le_trans h1 h2⟩

/-! ## Lemmas on the standard library model -/

/-- The model on some paths: ids with and without sign, a trailing slash, a missing
or empty segment, and the ends of the range of `int`. -/
theorem extractID_examples :
    extractID "/tasks/123" = .ok 123 ∧ extractID "/tasks/-5/" = .ok (-5) ∧
      extractID "/tasks/+5" = .ok 5 ∧ extractID "/tasks/007/x" = .ok 7 ∧
      extractID "/tasks" = .error .ErrSyntax ∧ extractID "/tasks//5" = .error .ErrSyntax ∧
      extractID "/tasks/12a" = .error .ErrSyntax ∧
      extractID "/tasks/9223372036854775807" = .ok 9223372036854775807 ∧
      extractID "/tasks/9223372036854775808" = .error .ErrRange ∧
      extractID "/tasks/-9223372036854775808" = .ok (-9223372036854775808) ∧
      extractID "/tasks/99999999999999999999999" = .error .ErrRange := by
  decide


theorem digitsValue_ge (l : List Char) : ∀ n, n ≤ digitsValue l n := by
  induction l with
  | nil => intro n; simp [digitsValue]
  | cons c cs ih =>
    intro n
    have h := ih (n * 10 + (c.toNat - 48))
    simp only [digitsValue, List.foldl_cons] at h ⊢
    omega

theorem digitsValue_append (l1 l2 : List Char) (n : Nat) :
    digitsValue (l1 ++ l2) n = digitsValue l2 (digitsValue l1 n) := by
  simp [digitsValue, List.foldl_append]

/-- The digit loop reads the exact value when it fits 64 bits and reports a
range error otherwise. -/
theorem parseUintLoop_digits (l : List Char) :
    ∀ n, (∀ c ∈ l, isDecimalDigit c = true) → n ≤ maxUint64 →
      parseUintLoop l n =
        if digitsValue l n ≤ maxUint64 then .ok (digitsValue l n) else .error .ErrRange := by
  induction l with
  | nil => intro n _ hn; simp [parseUintLoop, digitsValue, hn]
  | cons c cs ih =>
    intro n hall hn
    have hc : 48 ≤ c.toNat ∧ c.toNat ≤ 57 := by
      have := hall c (List.mem_cons_self _ _)
      simpa [isDecimalDigit] using this
    have hcs : ∀ c ∈ cs, isDecimalDigit c = true := fun x hx => hall x (List.mem_cons_of_mem _ hx)
    have hge := digitsValue_ge cs (n * 10 + (c.toNat - 48))
    have hstep : digitsValue (c :: cs) n = digitsValue cs (n * 10 + (c.toNat - 48)) := by
      simp [digitsValue]
    rw [hstep]
    unfold parseUintLoop
    have h1 : ¬ (c.toNat < 48 ∨ 57 < c.toNat) := by omega
    rw [if_neg h1]
    simp only [maxUint64] at hn hge ⊢
    norm_num at hn hge ⊢
    by_cases hcut : 1844674407370955162 ≤ n
    · rw [if_pos hcut, if_neg (by omega)]
    · rw [if_neg hcut]
      by_cases hov : n * 10 + (c.toNat - 48) ≤ 18446744073709551615
      · have e1 : n * 10 % 18446744073709551616 = n * 10 := Nat.mod_eq_of_lt (by omega)
        have e2 : (n * 10 + (c.toNat - 48)) % 18446744073709551616 = n * 10 + (c.toNat - 48) :=
          Nat.mod_eq_of_lt (by omega)
        rw [e1, e2, if_neg (by omega)]
        have := ih (n * 10 + (c.toNat - 48)) hcs (by simp only [maxUint64]; omega)
        simpa [maxUint64] using this
      · have e1 : n * 10 % 18446744073709551616 = n * 10 := Nat.mod_eq_of_lt (by omega)
        rw [e1, if_pos (by omega), if_neg (by omega)]

/-- A successful digit loop has read digits only. -/
theorem parseUintLoop_ok_digits (l : List Char) :
    ∀ n v, parseUintLoop l n = .ok v → ∀ c ∈ l, isDecimalDigit c = true := by
  induction l with
  | nil => intro n v _ c hc; simp at hc
  | cons c cs ih =>
    intro n v h x hx
    unfold parseUintLoop at h
    by_cases h1 : c.toNat < 48 ∨ 57 < c.toNat
    · rw [if_pos h1] at h; cases h
    · rw [if_neg h1] at h
      by_cases h2 : n ≥ maxUint64 / 10 + 1
      · rw [if_pos h2] at h; cases h
      · rw [if_neg h2] at h
        simp only at h
        split at h
        · cases h
        · rcases List.mem_cons.mp hx with rfl | hx
          · simp [isDecimalDigit]; omega
          · exact ih _ v h x hx

theorem digitChar_toNat (k : Nat) (hk : k < 10) : (Nat.digitChar k).toNat = 48 + k := by
  interval_cases k <;> rfl

/-- The digits that `Nat.toDigitsCore` puts before the accumulator are decimal
digits, at least one, and read back as the number. -/
theorem toDigitsCore_spec (fuel : Nat) :
    ∀ n ds, n < fuel → ∃ L : List Char, Nat.toDigitsCore 10 fuel n ds = L ++ ds ∧ L ≠ [] ∧
      (∀ c ∈ L, isDecimalDigit c = true) ∧ ∀ m, digitsValue L m = m * 10 ^ L.length + n := by
  induction fuel with
  | zero => intro n ds h; omega
  | succ fuel ih =>
    intro n ds hn
    have hd : (Nat.digitChar (n % 10)).toNat = 48 + n % 10 :=
      digitChar_toNat _ (Nat.mod_lt _ (by decide))
    have hdig : isDecimalDigit (Nat.digitChar (n % 10)) = true := by
      simp only [isDecimalDigit, hd, decide_eq_true_eq]; omega
    unfold Nat.toDigitsCore
    by_cases h0 : n / 10 = 0
    · simp only [h0, if_true]
      refine ⟨[Nat.digitChar (n % 10)], rfl, by simp, ?_, ?_⟩
      · intro c hc; simp only [List.mem_singleton] at hc; subst hc; exact hdig
      · intro m; simp only [digitsValue, List.foldl_cons, List.foldl_nil, hd, List.length_singleton]
        omega
    · simp only [h0, if_false]
      obtain ⟨L, hL, _, hLd, hLv⟩ := ih (n / 10) (Nat.digitChar (n % 10) :: ds) (by omega)
      refine ⟨L ++ [Nat.digitChar (n % 10)], by simp [hL], by simp, ?_, ?_⟩
      · intro c hc
        rcases List.mem_append.mp hc with hc | hc
        · exact hLd c hc
        · simp only [List.mem_singleton] at hc; subst hc; exact hdig
      · intro m
        rw [digitsValue_append, hLv m]
        simp only [digitsValue, List.foldl_cons, List.foldl_nil, hd, List.length_append,
          List.length_singleton, pow_succ]
        have := Nat.div_add_mod n 10
        have e : (m * 10 ^ L.length + n / 10) * 10 = m * (10 ^ L.length * 10) + (n / 10) * 10 := by
          ring
        omega

theorem toDigits_spec (n : Nat) :
    Nat.toDigits 10 n ≠ [] ∧ (∀ c ∈ Nat.toDigits 10 n, isDecimalDigit c = true) ∧
      digitsValue (Nat.toDigits 10 n) 0 = n := by
  obtain ⟨L, hL, hne, hd, hv⟩ := toDigitsCore_spec (n + 1) n [] (by omega)
  have e : Nat.toDigits 10 n = L := by simp [Nat.toDigits, hL]
  rw [e]
  exact ⟨hne, hd, by simpa using hv 0⟩

theorem ParseUint_toDigits (n : Nat) :
    ParseUint (Nat.toDigits 10 n) = if n ≤ maxUint64 then .ok n else .error .ErrRange := by
  obtain ⟨hne, hd, hv⟩ := toDigits_spec n
  have h := parseUintLoop_digits (Nat.toDigits 10 n) 0 hd (by simp [maxUint64])
  rw [hv] at h
  unfold ParseUint
  split
  · rename_i heq; exact absurd heq hne
  · exact h

theorem isDecimalDigit_ne_sign (c : Char) (h : isDecimalDigit c = true) :
    c ≠ '+' ∧ c ≠ '-' ∧ c ≠ '/' := by
  simp only [isDecimalDigit, decide_eq_true_eq] at h
  refine ⟨?_, ?_, ?_⟩ <;> (rintro rfl; revert h; decide)

/-- `Atoi` reads the decimal representation of `n` back when `n` fits a 64-bit
`int`, and reports a range error when it does not. -/
theorem Atoi_decimal (n : Int) :
    Atoi (decimal n) =
      if -9223372036854775808 ≤ n ∧ n < 9223372036854775808 then .ok n else .error .ErrRange := by
  cases n with
  | ofNat m =>
    obtain ⟨hne, hd, _⟩ := toDigits_spec m
    have hU := ParseUint_toDigits m
    match hm : Nat.toDigits 10 m with
    | [] => exact absurd hm hne
    | c :: cs =>
      have hc := isDecimalDigit_ne_sign c (hd c (by simp [hm]))
      rw [hm] at hU
      simp only [Atoi, decimal, hm, ParseInt, hc.1, hc.2.1, or_self, if_false, hU,
        Int.ofNat_eq_coe]
      by_cases h1 : m ≤ maxUint64
      · rw [if_pos h1]
        simp only [maxUint64] at h1
        norm_num at h1 ⊢
        split_ifs <;> first | rfl | omega
      · rw [if_neg h1]
        simp only [maxUint64] at h1 ⊢
        norm_num at h1 ⊢
        rw [if_neg (by omega)]
  | negSucc m =>
    obtain ⟨hne, hd, _⟩ := toDigits_spec (m + 1)
    have hU := ParseUint_toDigits (m + 1)
    simp only [Atoi, decimal, ParseInt, or_true, if_true, hU, Int.negSucc_eq]
    by_cases h1 : m + 1 ≤ maxUint64
    · rw [if_pos h1]
      simp only [maxUint64] at h1
      norm_num at h1 ⊢
      split_ifs <;> first | rfl | omega
    · rw [if_neg h1]
      simp only [maxUint64] at h1 ⊢
      norm_num at h1 ⊢
      rw [if_neg (by omega)]

theorem decimal_data (n : Int) :
    (decimal n).data ≠ [] ∧ ∀ c ∈ (decimal n).data, c ≠ '/' := by
  cases n with
  | ofNat m =>
    obtain ⟨hne, hd, _⟩ := toDigits_spec m
    exact ⟨hne, fun c hc => (isDecimalDigit_ne_sign c (hd c hc)).2.2⟩
  | negSucc m =>
    obtain ⟨_, hd, _⟩ := toDigits_spec (m + 1)
    refine ⟨by simp [decimal], fun c hc => ?_⟩
    simp only [decimal, List.mem_cons] at hc
    rcases hc with rfl | hc
    · decide
    · exact (isDecimalDigit_ne_sign c (hd c hc)).2.2

theorem splitSlash_noSlash (l : List Char) (h : ∀ c ∈ l, c ≠ '/') : splitSlash l = [l] := by
  induction l with
  | nil => rfl
  | cons c cs ih =>
    have hc : c ≠ '/' := h c (List.mem_cons_self _ _)
    have := ih (fun x hx => h x (List.mem_cons_of_mem _ hx))
    simp [splitSlash, hc, this]

/-- The segments of `/tasks/` followed by a string without a slash. -/
theorem pathParts_tasks (d : String) (hne : d.data ≠ []) (h : ∀ c ∈ d.data, c ≠ '/') :
    pathParts ("/tasks/" ++ d) = ["tasks".data, d.data] := by
  have hlast : ∀ hl : ['t', 'a', 's', 'k', 's', '/'] ++ d.data ≠ [],
      ¬ ((fun c => c == '/') ((['t', 'a', 's', 'k', 's', '/'] ++ d.data).getLast hl)) = true := by
    intro hl
    rw [List.getLast_append_of_ne_nil hne]
    have := h _ (List.getLast_mem hne)
    simpa using this
  have htrim : trimSlashes ("/tasks/" ++ d).data = ['t', 'a', 's', 'k', 's', '/'] ++ d.data := by
    have e : ("/tasks/" ++ d).data = '/' :: (['t', 'a', 's', 'k', 's', '/'] ++ d.data) := by
      simp [String.data_append]
    rw [e]
    unfold trimSlashes
    have e2 : List.dropWhile (fun c => c == '/')
        ('/' :: (['t', 'a', 's', 'k', 's', '/'] ++ d.data)) =
        ['t', 'a', 's', 'k', 's', '/'] ++ d.data := by
      simp [List.dropWhile]
    rw [e2]
    exact List.rdropWhile_eq_self_iff.mpr hlast
  unfold pathParts
  rw [htrim]
  have := splitSlash_noSlash d.data h
  simp [splitSlash, this]

theorem extractID_tasks_decimal (n : Int) :
    extractID ("/tasks/" ++ decimal n) = Atoi (decimal n) := by
  obtain ⟨hne, h⟩ := decimal_data n
  unfold extractID
  rw [pathParts_tasks (decimal n) hne h]
  simp

/-- What `ParseInt` accepts is a decimal integer. -/
theorem ParseInt_ok_isDecimalInteger (l : List Char) (v : Int) (h : ParseInt l = .ok v) :
    isDecimalInteger l = true := by
  cases l with
  | nil => simp [ParseInt] at h
  | cons c cs =>
    simp only [ParseInt] at h
    have key : ∀ rest, ParseUint rest = .error .ErrRange ∨ ParseUint rest = .error .ErrSyntax ∨
        ∃ u, ParseUint rest = .ok u := by
      intro rest
      cases hr : ParseUint rest with
      | error e => cases e <;> simp
      | ok u => simp
    have hok : ∃ u, ParseUint (if c = '+' ∨ c = '-' then cs else c :: cs) = .ok u := by
      rcases key (if c = '+' ∨ c = '-' then cs else c :: cs) with hr | hr | hr
      · rw [hr] at h
        simp only [maxUint64] at h
        by_cases hneg : c = '-'
        · simp [hneg] at h
        · simp [hneg] at h
      · rw [hr] at h; simp at h
      · exact hr
    obtain ⟨u, hu⟩ := hok
    have hdig : (if c = '+' ∨ c = '-' then cs else c :: cs) ≠ [] ∧
        ∀ x ∈ (if c = '+' ∨ c = '-' then cs else c :: cs), isDecimalDigit x = true := by
      generalize (if c = '+' ∨ c = '-' then cs else c :: cs) = rest at hu
      cases rest with
      | nil => simp [ParseUint] at hu
      | cons a as =>
        refine ⟨by simp, ?_⟩
        simp only [ParseUint] at hu
        exact parseUintLoop_ok_digits _ _ _ hu
    unfold isDecimalInteger
    by_cases hs : c = '+' ∨ c = '-'
    · simp only [hs, if_true] at hdig ⊢
      obtain ⟨h1, h2⟩ := hdig
      cases cs with
      | nil => exact absurd rfl h1
      | cons a as => simpa using h2
    · simp only [hs, if_false] at hdig ⊢
      simpa using hdig.2

/-- A path whose second segment is missing or is not a decimal integer has no id. -/
theorem extractID_error_of_not_decimal (path : String)
    (h : ∀ p, (pathParts path).get? 1 = some p → isDecimalInteger p = false) :
    ∃ e, extractID path = .error e := by
  unfold extractID
  simp only
  split
  · exact ⟨_, rfl⟩
  · cases hp : (pathParts path).get? 1 with
    | none => exact ⟨_, rfl⟩
    | some p =>
      simp only
      cases hA : Atoi ⟨p⟩ with
      | error e => exact ⟨e, rfl⟩
      | ok v =>
        have := ParseInt_ok_isDecimalInteger p v hA
        rw [h p hp] at this
        cases this

/-! ## Lemmas on the database and the store -/

/-- A successful insert returns the row it stored, with the next value of the
sequence as its id, which no row had. -/
theorem insert_ok (s : DB) (d : String) (c : Bool) (now : Time)
    (row : Task) (s1 : DB) (h : s.insert d c now = (.ok row, s1)) :
    row = ⟨((s.seq + 1 : Nat) : Int), d, c, now⟩ ∧
      s1 = { rows := row :: s.rows, seq := s.seq + 1 } ∧ s.seq + 1 ≤ maxSerial ∧
      ∀ t ∈ s.rows, t.ID ≠ ((s.seq + 1 : Nat) : Int) := by
  unfold DB.insert at h
  simp only at h
  by_cases h1 : maxSerial < s.seq + 1
  · rw [if_pos h1] at h; cases h
  · rw [if_neg h1] at h
    by_cases h2 : s.rows.any (fun r => r.ID = ((s.seq + 1 : Nat) : Int)) = true
    · rw [if_pos h2] at h; cases h
    · rw [if_neg h2] at h
      have h3 : ∀ t ∈ s.rows, t.ID ≠ ((s.seq + 1 : Nat) : Int) := by
        intro t ht heq
        apply h2
        simp only [List.any_eq_true, decide_eq_true_eq]
        exact ⟨t, ht, heq⟩
      simp only [Prod.mk.injEq, Except.ok.injEq] at h
      obtain ⟨rfl, rfl⟩ := h
      exact ⟨rfl, rfl, by omega, h3⟩

/-- With room in the sequence and no row holding the next id, the insert
succeeds. -/
theorem insert_free (s : DB) (d : String) (c : Bool) (now : Time)
    (hseq : s.seq + 1 ≤ maxSerial) (hfree : ∀ t ∈ s.rows, t.ID ≠ ((s.seq + 1 : Nat) : Int)) :
    s.insert d c now =
      (.ok ⟨((s.seq + 1 : Nat) : Int), d, c, now⟩,
        { rows := ⟨((s.seq + 1 : Nat) : Int), d, c, now⟩ :: s.rows, seq := s.seq + 1 }) := by
  unfold DB.insert
  have h1 : ¬ maxSerial < s.seq + 1 := by omega
  have h2 : ¬ s.rows.any (fun r => r.ID = ((s.seq + 1 : Nat) : Int)) = true := by
    simp only [List.any_eq_true, decide_eq_true_eq, not_exists, not_and]
    exact hfree
  simp only [h1, h2, if_false]
  rfl

/-- The statement of `AddTask` returns a row only when the insert stored it. -/
theorem insertReturning_ok (s : DB) (d : String) (c : Bool) (now : Time) (fault : Option Fault)
    (row : Task) (s1 : DB) (h : s.insertReturning d c now fault = (.ok row, s1)) :
    s.insert d c now = (.ok row, s1) := by
  unfold DB.insertReturning at h
  cases fault with
  | none => exact h
  | some f =>
    cases f with
    | exec e => cases h
    | result e =>
      simp only at h
      split at h <;> cases h

/-- The sequence never goes back. -/
theorem insert_seq_le (s : DB) (d : String) (c : Bool) (now : Time) :
    s.seq ≤ (s.insert d c now).2.seq := by
  unfold DB.insert
  simp only
  split_ifs <;> simp

theorem insertReturning_seq_le (s : DB) (d : String) (c : Bool) (now : Time)
    (fault : Option Fault) : s.seq ≤ (s.insertReturning d c now fault).2.seq := by
  have h := insert_seq_le s d c now
  unfold DB.insertReturning
  cases fault with
  | none => exact h
  | some f =>
    cases f with
    | exec e => exact le_refl _
    | result e =>
      simp only
      split <;> rename_i heq <;> rw [heq] at h <;> exact h

theorem AddTask_ok (s : DB) (d : String) (now : Time) (fault : Option Fault) (t : Task)
    (s1 : DB) (h : Store.AddTask s d now fault = (.ok t, s1)) :
    d ≠ "" ∧ s.insert d false now = (.ok t, s1) := by
  unfold Store.AddTask at h
  by_cases hd : d = ""
  · rw [if_pos hd] at h; cases h
  · rw [if_neg hd] at h
    refine ⟨hd, insertReturning_ok s d false now fault t s1 ?_⟩
    cases hr : s.insertReturning d false now fault with
    | mk r s2 =>
      rw [hr] at h
      cases r with
      | error e => cases h
      | ok t2 => exact h

theorem AddTask_seq_le (s : DB) (d : String) (now : Time) (fault : Option Fault) :
    s.seq ≤ (Store.AddTask s d now fault).2.seq := by
  have h := insertReturning_seq_le s d false now fault
  unfold Store.AddTask
  by_cases hd : d = ""
  · rw [if_pos hd]
  · rw [if_neg hd]
    cases hr : s.insertReturning d false now fault with
    | mk r s2 =>
      rw [hr] at h
      cases r <;> exact h

/-- The state `CompleteTask` leaves: the update has run unless `Exec` failed. -/
theorem CompleteTask_state (s : DB) (id : Int) (c : Bool) (fault : Option Fault) :
    (Store.CompleteTask s id c fault).2 = s ∨
      (Store.CompleteTask s id c fault).2 = s.setCompleted c id := by
  unfold Store.CompleteTask DB.updateCompleted
  cases fault with
  | none =>
    right
    simp only
    split_ifs <;> rfl
  | some f => cases f <;> simp

/-- The state `DeleteTask` leaves: the delete has run unless `Exec` failed. -/
theorem DeleteTask_state (s : DB) (id : Int) (fault : Option Fault) :
    (Store.DeleteTask s id fault).2 = s ∨ (Store.DeleteTask s id fault).2 = s.remove id := by
  unfold Store.DeleteTask DB.deleteByID
  cases fault with
  | none =>
    right
    simp only
    split_ifs <;> rfl
  | some f => cases f <;> simp

theorem Call_run_seq_le (s : DB) (call : Call) : s.seq ≤ (call.run s).seq := by
  cases call with
  | add d now f => exact AddTask_seq_le s d now f
  | complete id c f =>
    rcases CompleteTask_state s id c f with h | h <;> simp [Call.run, h, DB.setCompleted]
  | delete id f =>
    rcases DeleteTask_state s id f with h | h <;> simp [Call.run, h, DB.remove]

theorem runCalls_seq_le (calls : List Call) : ∀ s : DB, s.seq ≤ (runCalls s calls).seq := by
  induction calls with
  | nil => intro s; exact le_refl _
  | cons call rest ih =>
    intro s
    exact le_trans (Call_run_seq_le s call) (ih (call.run s))

/-- On a working database `CompleteTask` reports whether a row matched. -/
theorem CompleteTask_none (s : DB) (id : Int) (c : Bool) :
    Store.CompleteTask s id c none =
      (if s.matching id = 0 then .error "task not found" else .ok (), s.setCompleted c id) := by
  unfold Store.CompleteTask DB.updateCompleted
  simp only
  by_cases h : s.matching id = 0
  · simp [h]
  · have : ¬ ((s.matching id : Nat) : Int) = 0 := by exact_mod_cast h
    simp [h, this]

/-- On a working database `DeleteTask` reports whether a row matched. -/
theorem DeleteTask_none (s : DB) (id : Int) :
    Store.DeleteTask s id none =
      (if s.matching id = 0 then .error "task not found" else .ok (), s.remove id) := by
  unfold Store.DeleteTask DB.deleteByID
  simp only
  by_cases h : s.matching id = 0
  · simp [h]
  · have : ¬ ((s.matching id : Nat) : Int) = 0 := by exact_mod_cast h
    simp [h, this]

theorem matching_eq_zero (s : DB) (id : Int) :
    s.matching id = 0 ↔ ∀ t ∈ s.rows, t.ID ≠ id := by
  simp [DB.matching, List.countP_eq_zero]

theorem setCompleted_of_no_match (s : DB) (c : Bool) (id : Int) (h : ∀ t ∈ s.rows, t.ID ≠ id) :
    s.setCompleted c id = s := by
  cases s with
  | mk rows seq =>
    simp only [DB.setCompleted, DB.mk.injEq, and_true]
    conv_rhs => rw [← List.map_id rows]
    apply List.map_congr_left
    intro t ht
    simp [DB.setRow, h t ht]

/-- The rows of the loop of `ListTasks` on a database that does not fail. -/
theorem scanRows_none (rows : List Task) : ∀ (i : Nat) (acc : Slice Task),
    Store.scanRows none rows i acc =
      .ok (match rows with
        | [] => acc
        | _ :: _ => Slice.mk (acc.toList ++ rows)) := by
  induction rows with
  | nil => intro i acc; rfl
  | cons r rest ih =>
    intro i acc
    unfold Store.scanRows
    simp only
    rw [ih]
    cases rest with
    | nil => simp [Slice.append]
    | cons r2 rest2 => simp [Slice.append, Slice.toList]

/-- On a database that does not fail `ListTasks` returns the rows in the order
of the query, as the nil slice when there is none. -/
theorem ListTasks_none (s : DB) :
    Store.ListTasks s none =
      .ok (match s.selectOrderByID with
        | [] => Slice.nil
        | r :: rest => Slice.mk (r :: rest)) := by
  unfold Store.ListTasks
  simp only [scanRows_none]
  cases s.selectOrderByID <;> simp [Slice.toList]

theorem ListTasks_none_toList (s : DB) :
    ∃ sl, Store.ListTasks s none = .ok sl ∧ sl.toList = s.selectOrderByID := by
  rw [ListTasks_none]
  refine ⟨_, rfl, ?_⟩
  cases s.selectOrderByID <;> rfl

/-- A row whose id is above all others is listed last. -/
theorem orderedInsert_of_all_lt (t : Task) (l : List Task) (h : ∀ x ∈ l, x.ID < t.ID) :
    l.orderedInsert (fun a b => a.ID ≤ b.ID) t = l ++ [t] := by
  induction l with
  | nil => rfl
  | cons a l ih =>
    have ha : ¬ t.ID ≤ a.ID := not_le.mpr (h a (List.mem_cons_self _ _))
    have := ih (fun x hx => h x (List.mem_cons_of_mem _ hx))
    simp [List.orderedInsert, ha, this]

theorem AddTask_free (s : DB) (d : String) (now : Time) (hd : d ≠ "")
    (hseq : s.seq + 1 ≤ maxSerial) (hbelow : ∀ r ∈ s.rows, r.ID ≤ (s.seq : Int)) :
    Store.AddTask s d now none =
      (.ok ⟨((s.seq + 1 : Nat) : Int), d, false, now⟩,
        { rows := ⟨((s.seq + 1 : Nat) : Int), d, false, now⟩ :: s.rows, seq := s.seq + 1 }) := by
  have hfree : ∀ t ∈ s.rows, t.ID ≠ ((s.seq + 1 : Nat) : Int) := by
    intro t ht
    have := hbelow t ht
    omega
  unfold Store.AddTask DB.insertReturning
  simp only [if_neg hd, insert_free s d false now hseq hfree]

/-- Adding tasks to a table whose ids are all at most the last sequence value: every
call returns a task, and the listing grows by the returned tasks, in order. -/
theorem addEach_spec (calls : List (String × Time)) : ∀ s : DB,
    (∀ r ∈ s.rows, r.ID ≤ (s.seq : Int)) → (∀ c ∈ calls, c.1 ≠ "") →
    s.seq + calls.length ≤ maxSerial →
    ∃ ts : List Task, (addEach s calls).1 = ts.map Except.ok ∧
      ts.map (fun t => (t.Description, t.CreatedAt)) = calls ∧
      (∀ t ∈ ts, (s.seq : Int) < t.ID ∧ t.Completed = false) ∧
      ts.Pairwise (fun a b => a.ID < b.ID) ∧
      (addEach s calls).2.selectOrderByID = s.selectOrderByID ++ ts := by
  induction calls with
  | nil =>
    intro s _ _ _
    exact ⟨[], by simp [addEach]⟩
  | cons call rest ih =>
    intro s hbelow hne hseq
    obtain ⟨d, now⟩ := call
    have hd : d ≠ "" := hne (d, now) (List.mem_cons_self _ _)
    simp only [List.length_cons] at hseq
    have hadd := AddTask_free s d now hd (by omega) hbelow
    have hbelow1 : ∀ r ∈ (⟨((s.seq + 1 : Nat) : Int), d, false, now⟩ :: s.rows : List Task),
        r.ID ≤ ((s.seq + 1 : Nat) : Int) := by
      intro r hr
      rcases List.mem_cons.mp hr with rfl | hr
      · exact le_refl _
      · have := hbelow r hr
        omega
    obtain ⟨ts, h1, h2, h3, h4, h5⟩ := ih
      { rows := ⟨((s.seq + 1 : Nat) : Int), d, false, now⟩ :: s.rows, seq := s.seq + 1 }
      hbelow1 (fun c hc => hne c (List.mem_cons_of_mem _ hc)) (by simp only; omega)
    refine ⟨⟨((s.seq + 1 : Nat) : Int), d, false, now⟩ :: ts, ?_, ?_, ?_, ?_, ?_⟩
    · simp only [addEach, hadd, h1, List.map_cons]
    · simp only [List.map_cons, h2]
    · intro t ht
      rcases List.mem_cons.mp ht with rfl | ht
      · exact ⟨by simp only; omega, rfl⟩
      · have := h3 t ht
        simp only at this
        exact ⟨by omega, this.2⟩
    · refine List.pairwise_cons.mpr ⟨?_, h4⟩
      intro t ht
      have := (h3 t ht).1
      simpa using this
    · simp only [addEach, hadd]
      rw [h5]
      have hsel : DB.selectOrderByID
          { rows := ⟨((s.seq + 1 : Nat) : Int), d, false, now⟩ :: s.rows, seq := s.seq + 1 } =
          s.selectOrderByID ++ [⟨((s.seq + 1 : Nat) : Int), d, false, now⟩] := by
        simp only [DB.selectOrderByID, List.insertionSort]
        apply orderedInsert_of_all_lt
        intro x hx
        have hx2 : x ∈ s.rows := (List.mem_insertionSort _).mp hx
        have := hbelow x hx2
        simp only
        omega
      rw [hsel]
      simp

theorem setRow_fields (c : Bool) (id : Int) (r : Task) :
    (DB.setRow c id r).ID = r.ID ∧ (DB.setRow c id r).Description = r.Description ∧
      (DB.setRow c id r).CreatedAt = r.CreatedAt ∧ (r.ID ≠ id → DB.setRow c id r = r) ∧
      (r.ID = id → (DB.setRow c id r).Completed = c) := by
  unfold DB.setRow
  by_cases h : r.ID = id <;> simp [h]

theorem setCompleted_rows (s : DB) (c : Bool) (id : Int) :
    (s.setCompleted c id).rows = s.rows.map (DB.setRow c id) ∧ (s.setCompleted c id).seq = s.seq :=
  ⟨rfl, rfl⟩

/-- The listing after the update is the listing before, row by row updated. -/
theorem select_setCompleted (s : DB) (c : Bool) (id : Int) :
    (s.setCompleted c id).selectOrderByID = s.selectOrderByID.map (DB.setRow c id) := by
  unfold DB.selectOrderByID
  rw [(setCompleted_rows s c id).1]
  symm
  apply List.map_insertionSort
  intro a _ b _
  rw [(setRow_fields c id a).1, (setRow_fields c id b).1]

theorem filter_orderedInsert_sorted (p : Task → Bool) (a : Task) :
    ∀ l : List Task, l.Sorted (fun a b => a.ID ≤ b.ID) →
      (l.orderedInsert (fun a b => a.ID ≤ b.ID) a).filter p =
        if p a = true then (l.filter p).orderedInsert (fun a b => a.ID ≤ b.ID) a
        else l.filter p := by
  intro l
  induction l with
  | nil => intro _; by_cases hp : p a = true <;> simp [hp]
  | cons b l ih =>
    intro hs
    have hs2 := List.sorted_cons.mp hs
    have ih2 := ih hs2.2
    by_cases hab : a.ID ≤ b.ID
    · have hall : ∀ x ∈ (b :: l).filter p, a.ID ≤ x.ID := by
        intro x hx
        have hx2 : x ∈ b :: l := (List.mem_filter.mp hx).1
        rcases List.mem_cons.mp hx2 with rfl | hx3
        · exact hab
        · exact le_trans hab (hs2.1 x hx3)
      simp only [List.orderedInsert, if_pos hab]
      by_cases hp : p a = true
      · rw [if_pos hp, List.filter_cons_of_pos hp]
        cases hf : (b :: l).filter p with
        | nil => rfl
        | cons x xs =>
          have hx : a.ID ≤ x.ID := hall x (by rw [hf]; exact List.mem_cons_self _ _)
          simp [List.orderedInsert, hx]
      · rw [if_neg hp, List.filter_cons_of_neg hp]
    · simp only [List.orderedInsert, if_neg hab]
      by_cases hb : p b = true
      · rw [List.filter_cons_of_pos hb, List.filter_cons_of_pos hb, ih2]
        by_cases hp : p a = true
        · simp [hp, List.orderedInsert, hab]
        · simp [hp]
      · rw [List.filter_cons_of_neg hb, List.filter_cons_of_neg hb, ih2]

theorem insertionSort_filter (p : Task → Bool) (l : List Task) :
    (l.filter p).insertionSort (fun a b => a.ID ≤ b.ID) =
      (l.insertionSort (fun a b => a.ID ≤ b.ID)).filter p := by
  induction l with
  | nil => rfl
  | cons a l ih =>
    have hs := List.sorted_insertionSort (fun a b : Task => a.ID ≤ b.ID) l
    simp only [List.insertionSort]
    rw [filter_orderedInsert_sorted p a _ hs]
    by_cases hp : p a = true
    · rw [List.filter_cons_of_pos hp, if_pos hp, List.insertionSort, ih]
    · rw [List.filter_cons_of_neg hp, if_neg hp, ih]

/-- The listing after the delete is the listing before without the deleted id. -/
theorem select_remove (s : DB) (id : Int) :
    (s.remove id).selectOrderByID = s.selectOrderByID.filter (fun r => ¬ r.ID = id) := by
  unfold DB.selectOrderByID DB.remove
  exact insertionSort_filter _ _

theorem matching_remove (s : DB) (id : Int) : (s.remove id).matching id = 0 := by
  rw [matching_eq_zero]
  intro t ht
  simp only [DB.remove, List.mem_filter, decide_eq_true_eq] at ht
  exact ht.2

theorem remove_remove (s : DB) (id : Int) : (s.remove id).remove id = s.remove id := by
  simp [DB.remove, List.filter_filter]

theorem mem_select (s : DB) (t : Task) : t ∈ s.selectOrderByID ↔ t ∈ s.rows :=
  List.mem_insertionSort _

/-- Updating the rows changes no id, description or timestamp, and no row of
another id. -/
theorem map_setRow_frame (c : Bool) (id : Int) (l : List Task) :
    (l.map (DB.setRow c id)).map (fun t => (t.ID, t.Description, t.CreatedAt)) =
        l.map (fun t => (t.ID, t.Description, t.CreatedAt)) ∧
      (l.map (DB.setRow c id)).filter (fun t => ¬ t.ID = id) =
        l.filter (fun t => ¬ t.ID = id) := by
  induction l with
  | nil => exact ⟨rfl, rfl⟩
  | cons a l ih =>
    obtain ⟨h1, h2, h3, h4, _⟩ := setRow_fields c id a
    constructor
    · simp only [List.map_cons, h1, h2, h3, ih.1]
    · by_cases ha : a.ID = id
      · simp only [List.map_cons, List.filter_cons, h1, ha, not_true_eq_false, decide_False,
          Bool.false_eq_true, if_false]
        exact ih.2
      · rw [List.map_cons, h4 ha]
        simp only [List.filter_cons, ih.2]

/-- A wrapped storage error is not the not-found error. -/
theorem wrapped_ne_notFound (e : String) :
    "failed to update task: " ++ e ≠ "task not found" ∧
      "failed to delete task: " ++ e ≠ "task not found" ∧
      "failed to check rows affected: " ++ e ≠ "task not found" := by
  refine ⟨?_, ?_, ?_⟩ <;>
  · intro h
    have h2 := congrArg String.data h
    simp [String.data_append] at h2

theorem writeError_fields (enc : Encoder) (status : Nat) (message : String) :
    (writeError enc ResponseWriter.new status message).code = status ∧
      (writeError enc ResponseWriter.new status message).body =
        enc.errorObject message ++ "\n" ∧
      (writeError enc ResponseWriter.new status message).contentType =
        some "application/json" := by
  simp [writeError, ResponseWriter.code, ResponseWriter.Encode, ResponseWriter.Write,
    ResponseWriter.WriteHeader, ResponseWriter.SetContentType, ResponseWriter.new]

/-- What `CompleteTask` returns, by what the database did. -/
theorem CompleteTask_result (s : DB) (id : Int) (c : Bool) (fault : Option Fault) :
    (Store.CompleteTask s id c fault).1 =
      match fault with
      | none => if s.matching id = 0 then .error "task not found" else .ok ()
      | some (.exec e) => .error ("failed to update task: " ++ e)
      | some (.result e) => .error ("failed to check rows affected: " ++ e) := by
  cases fault with
  | none => rw [CompleteTask_none]
  | some f => cases f <;> rfl

/-- What `DeleteTask` returns, by what the database did. -/
theorem DeleteTask_result (s : DB) (id : Int) (fault : Option Fault) :
    (Store.DeleteTask s id fault).1 =
      match fault with
      | none => if s.matching id = 0 then .error "task not found" else .ok ()
      | some (.exec e) => .error ("failed to delete task: " ++ e)
      | some (.result e) => .error ("failed to check rows affected: " ++ e) := by
  cases fault with
  | none => rw [DeleteTask_none]
  | some f => cases f <;> rfl

theorem UpdateTask_answer (enc : Encoder) (s : DB) (path : String) (id : Int) (c : Bool)
    (fault : Option Fault) (hid : extractID path = .ok id) :
    (Handler.UpdateTask enc s path (.ok c) fault).1 =
      answer enc (Store.CompleteTask s id c fault).1 := by
  unfold Handler.UpdateTask answer
  simp only [hid]
  cases hr : Store.CompleteTask s id c fault with
  | mk r s1 =>
    cases r with
    | error err => simp only; split_ifs <;> rfl
    | ok u => rfl

theorem DeleteTask_answer (enc : Encoder) (s : DB) (path : String) (id : Int)
    (fault : Option Fault) (hid : extractID path = .ok id) :
    (Handler.DeleteTask enc s path fault).1 = answer enc (Store.DeleteTask s id fault).1 := by
  unfold Handler.DeleteTask answer
  simp only [hid]
  cases hr : Store.DeleteTask s id fault with
  | mk r s1 =>
    cases r with
    | error err => simp only; split_ifs <;> rfl
    | ok u => rfl

/-- The status and the body of an answer, by what the database did: 404 when it
worked and no row matched, 204 and nothing written when it worked and a row matched,
500 when it failed; every answer but the 204 is an error object. -/
theorem answer_table (enc : Encoder) (fault : Option Fault) (matched : Nat)
    (r : Except String Unit)
    (hnone : fault = none → r = if matched = 0 then .error "task not found" else .ok ())
    (hsome : fault ≠ none → ∃ err, r = .error err ∧ err ≠ "task not found") :
    ((answer enc r).code = 404 ↔ fault = none ∧ matched = 0) ∧
      ((answer enc r).code = 500 ↔ fault ≠ none) ∧
      ((answer enc r).code = 204 ↔ fault = none ∧ matched ≠ 0) ∧
      ((answer enc r).code = 204 ↔ r = .ok ()) ∧
      ((answer enc r).code = 204 →
        (answer enc r).body = "" ∧ (answer enc r).contentType = none) ∧
      ((answer enc r).code ≠ 204 → ∃ message,
        (answer enc r).body = enc.errorObject message ++ "\n" ∧
        (answer enc r).contentType = some "application/json") := by
  cases fault with
  | none =>
    have hr := hnone rfl
    by_cases hm : matched = 0
    · rw [if_pos hm] at hr
      subst hr
      have hw := writeError_fields enc 404 "task not found"
      simp only [answer, if_true, hw.1, hm]
      simp only [hw.2.1, hw.2.2]
      simp
      exact ⟨_, rfl⟩
    · rw [if_neg hm] at hr
      subst hr
      simp [answer, hm, ResponseWriter.code, ResponseWriter.WriteHeader, ResponseWriter.new]
  | some f =>
    obtain ⟨err, hr, hne⟩ := hsome (by simp)
    subst hr
    have hw := writeError_fields enc 500 err
    simp only [answer, if_neg hne, hw.1]
    simp only [hw.2.1, hw.2.2]
    simp
    exact ⟨_, rfl⟩

/-- The scenario of the specification on the model: create "buy milk" on a fresh
table, 201; update task 1, 204; the listing holds the task, completed; delete it,
204; the listing is then written as `null`. -/
theorem scenario_example :
    (Handler.CreateTask Encoder.quoting ⟨[], 0⟩ (.ok "buy milk") 7 none).1.code = 201 ∧
      (Handler.CreateTask Encoder.quoting ⟨[], 0⟩ (.ok "buy milk") 7 none).2 =
        ⟨[⟨1, "buy milk", false, 7⟩], 1⟩ ∧
      (Handler.UpdateTask Encoder.quoting ⟨[⟨1, "buy milk", false, 7⟩], 1⟩ "/tasks/1"
        (.ok true) none) = (⟨none, some 204, ""⟩, ⟨[⟨1, "buy milk", true, 7⟩], 1⟩) ∧
      Store.ListTasks ⟨[⟨1, "buy milk", true, 7⟩], 1⟩ none =
        .ok (Slice.mk [⟨1, "buy milk", true, 7⟩]) ∧
      (Handler.DeleteTask Encoder.quoting ⟨[⟨1, "buy milk", true, 7⟩], 1⟩ "/tasks/1" none) =
        (⟨none, some 204, ""⟩, ⟨[], 1⟩) ∧
      Handler.ListTasks Encoder.quoting ⟨[], 1⟩ none =
        ⟨some "application/json", some 200, "null\n"⟩ := by
  decide

/-! ## The claims -/

/-- C1. When the description `d` is not empty and the database does not fail (the
insert statement returns the row `row`), `AddTask` returns `row` without error; its
description is `d`, it is not completed, its id is not zero and differs from the id
of every task in the table and of every task that an earlier `AddTask` returned,
whatever calls came in between. -/
theorem C1_AddTask_returns_fresh_task (s : DB) (d : String) (now : Time)
    (fault : Option Fault) (row : Task) (s1 : DB) (hd : d ≠ "")
    (hdb : s.insertReturning d false now fault = (.ok row, s1)) :
    Store.AddTask s d now fault = (.ok row, s1) ∧ row.Description = d ∧
      row.Completed = false ∧ row.ID ≠ 0 ∧ (∀ t ∈ s.rows, t.ID ≠ row.ID) ∧
      (∀ (s0 sA : DB) (d0 : String) (now0 : Time) (f0 : Option Fault) (t0 : Task)
        (calls : List Call), Store.AddTask s0 d0 now0 f0 = (.ok t0, sA) →
        s = runCalls sA calls → t0.ID ≠ row.ID) ∧
      row ∈ s1.rows := by
  obtain ⟨hrow, hs1, _, hfree⟩ := insert_ok s d false now row s1
    (insertReturning_ok s d false now fault row s1 hdb)
  have hid : row.ID = ((s.seq + 1 : Nat) : Int) := by rw [hrow]
  refine ⟨?_, by rw [hrow], by rw [hrow], ?_, ?_, ?_, ?_⟩
  · unfold Store.AddTask
    rw [if_neg hd, hdb]
  · rw [hid]; omega
  · intro t ht; rw [hid]; exact hfree t ht
  · intro s0 sA d0 now0 f0 t0 calls h0 hs
    obtain ⟨_, hins⟩ := AddTask_ok s0 d0 now0 f0 t0 sA h0
    obtain ⟨ht0, hsA, _, _⟩ := insert_ok s0 d0 false now0 t0 sA hins
    have h1 : sA.seq = s0.seq + 1 := by rw [hsA]
    have h2 : sA.seq ≤ s.seq := by rw [hs]; exact runCalls_seq_le calls sA
    have h3 : t0.ID = ((s0.seq + 1 : Nat) : Int) := by rw [ht0]
    rw [hid, h3]
    omega
  · rw [hs1]; exact List.mem_cons_self _ _

/-- C1 at the first task of a fresh table. -/
theorem C1_AddTask_returns_fresh_task_witness :
    Store.AddTask ⟨[], 0⟩ "buy milk" 7 none =
        (.ok ⟨1, "buy milk", false, 7⟩, ⟨[⟨1, "buy milk", false, 7⟩], 1⟩) ∧
      (⟨1, "buy milk", false, 7⟩ : Task).ID ≠ 0 :=
  have h := C1_AddTask_returns_fresh_task ⟨[], 0⟩ "buy milk" 7 none
    ⟨1, "buy milk", false, 7⟩ ⟨[⟨1, "buy milk", false, 7⟩], 1⟩ (by decide) (by decide)
  ⟨h.1, h.2.2.2.1⟩

/-- C2. An empty description is rejected and nothing is stored: `AddTask` with the
empty description returns an error and leaves the database as it was, whatever the
database would have done; `CreateTask` on a body that decodes to an empty (or
absent) description answers 400 with the database as it was, again whatever the
database would have done, so that `ListTasks` returns afterwards what it returned
before. -/
theorem C2_empty_description_rejected (enc : Encoder) (s : DB) (now : Time)
    (fault : Option Fault) (qf : Option QueryFault) :
    Store.AddTask s "" now fault = (.error "description cannot be empty", s) ∧
      (Handler.CreateTask enc s (.ok "") now fault).1.code = 400 ∧
      (Handler.CreateTask enc s (.ok "") now fault).1.body =
        enc.errorObject "Description is required" ++ "\n" ∧
      (Handler.CreateTask enc s (.ok "") now fault).2 = s ∧
      Store.ListTasks (Handler.CreateTask enc s (.ok "") now fault).2 qf =
        Store.ListTasks s qf := by
  refine ⟨by simp [Store.AddTask], ?_, ?_, ?_, ?_⟩ <;>
    simp [Handler.CreateTask, writeError, ResponseWriter.code, ResponseWriter.Encode,
      ResponseWriter.Write, ResponseWriter.WriteHeader, ResponseWriter.SetContentType,
      ResponseWriter.new]

/-- C3. Starting from an empty table, `AddTask` is called on each of N non-empty
descriptions and the database does not fail (no fault, and the sequence has N
values left). Then every call returns a task, with the description it was given;
`ListTasks` returns exactly N tasks, which are the returned tasks, and their ids
ascend strictly. -/
theorem C3_ListTasks_after_N_adds (s : DB) (calls : List (String × Time))
    (hempty : s.rows = []) (hne : ∀ c ∈ calls, c.1 ≠ "")
    (hseq : s.seq + calls.length ≤ maxSerial) :
    ∃ ts : List Task, (addEach s calls).1 = ts.map Except.ok ∧
      ts.map (fun t => t.Description) = calls.map (fun c => c.1) ∧
      (∃ sl, Store.ListTasks (addEach s calls).2 none = .ok sl ∧ sl.toList = ts ∧
        sl.len = calls.length) ∧
      ts.Pairwise (fun a b => a.ID < b.ID) := by
  obtain ⟨ts, h1, h2, _, h4, h5⟩ := addEach_spec calls s (by simp [hempty]) hne hseq
  obtain ⟨sl, hsl, hl⟩ := ListTasks_none_toList (addEach s calls).2
  have hsel : s.selectOrderByID = [] := by simp [DB.selectOrderByID, hempty]
  rw [h5, hsel, List.nil_append] at hl
  refine ⟨ts, h1, ?_, ⟨sl, hsl, hl, ?_⟩, h4⟩
  · rw [← h2, List.map_map]; rfl
  · rw [Slice.len, hl, ← h2, List.length_map]

/-- C3 at two tasks added to a fresh table. -/
theorem C3_ListTasks_after_N_adds_witness :
    ∃ ts : List Task, (addEach ⟨[], 0⟩ [("buy milk", 5), ("walk dog", 9)]).1 = ts.map Except.ok ∧
      ts.map (fun t => t.Description) =
        [("buy milk", 5), ("walk dog", 9)].map (fun c : String × Time => c.1) ∧
      (∃ sl, Store.ListTasks (addEach ⟨[], 0⟩ [("buy milk", 5), ("walk dog", 9)]).2 none = .ok sl ∧
        sl.toList = ts ∧ sl.len = [("buy milk", 5), ("walk dog", (9 : Time))].length) ∧
      ts.Pairwise (fun a b => a.ID < b.ID) :=
  C3_ListTasks_after_N_adds ⟨[], 0⟩ [("buy milk", 5), ("walk dog", 9)] rfl (by decide) (by decide)

/-- C4, the claim as stated fails: it holds for no database that fails. When `Exec`
fails, `CompleteTask` of the id of an existing task returns the wrapped storage
error, and `CompleteTask` of an id that no task has returns that error too, not
"task not found". -/
theorem C4_CompleteTask_counterexample :
    (Store.CompleteTask ⟨[⟨1, "buy milk", false, 7⟩], 1⟩ 1 true
        (some (.exec "connection refused"))).1 =
      .error "failed to update task: connection refused" ∧
    (Store.CompleteTask ⟨[⟨1, "buy milk", false, 7⟩], 1⟩ 2 true
        (some (.exec "connection refused"))).1 =
      .error "failed to update task: connection refused" ∧
    ¬ (∀ (s : DB) (id : Int) (c : Bool) (fault : Option Fault),
      ((∃ t ∈ s.rows, t.ID = id) → (Store.CompleteTask s id c fault).1 = .ok ()) ∧
      ((∀ t ∈ s.rows, t.ID ≠ id) →
        (Store.CompleteTask s id c fault).1 = .error "task not found")) := by
  refine ⟨by decide, by decide, ?_⟩
  intro hall
  have h := (hall ⟨[⟨1, "buy milk", false, 7⟩], 1⟩ 1 true
    (some (.exec "connection refused"))).1 ⟨⟨1, "buy milk", false, 7⟩, by decide, by decide⟩
  revert h
  decide

/-- C4, amended. When the database does not fail during the update (`fault = none`)
nor during the listing (`qf = none`): if a task with the id exists,
`CompleteTask(id, c)` returns no error and `ListTasks` then holds a task with that
id, and every task with that id has `Completed` equal to `c`; if no task with the id
exists, `CompleteTask` returns the error "task not found" and the database is as it
was. -/
theorem C4_CompleteTask_sets_flag_or_not_found (s : DB) (id : Int) (c : Bool)
    (fault : Option Fault) (qf : Option QueryFault) (hdb : fault = none) (hq : qf = none) :
    ((∃ t ∈ s.rows, t.ID = id) →
      (Store.CompleteTask s id c fault).1 = .ok () ∧
      ∃ sl, Store.ListTasks (Store.CompleteTask s id c fault).2 qf = .ok sl ∧
        (∃ t ∈ sl.toList, t.ID = id) ∧ ∀ t ∈ sl.toList, t.ID = id → t.Completed = c) ∧
    ((∀ t ∈ s.rows, t.ID ≠ id) →
      Store.CompleteTask s id c fault = (.error "task not found", s)) := by
  subst hdb hq
  rw [CompleteTask_none]
  constructor
  · rintro ⟨t, ht, hid⟩
    have hm : ¬ s.matching id = 0 := by
      rw [matching_eq_zero]; push_neg; exact ⟨t, ht, hid⟩
    refine ⟨by simp [hm], ?_⟩
    obtain ⟨sl, hsl, hl⟩ := ListTasks_none_toList (s.setCompleted c id)
    refine ⟨sl, hsl, ?_, ?_⟩
    · refine ⟨DB.setRow c id t, ?_, ?_⟩
      · rw [hl, select_setCompleted]
        exact List.mem_map_of_mem _ ((mem_select s t).mpr ht)
      · rw [(setRow_fields c id t).1]; exact hid
    · intro x hx hxid
      rw [hl, select_setCompleted] at hx
      obtain ⟨y, _, rfl⟩ := List.mem_map.mp hx
      rw [(setRow_fields c id y).1] at hxid
      exact (setRow_fields c id y).2.2.2.2 hxid
  · intro h
    rw [if_pos ((matching_eq_zero s id).mpr h), setCompleted_of_no_match s c id h]

/-- C4 at a table with one task, completed and then looked for under another id. -/
theorem C4_CompleteTask_sets_flag_or_not_found_witness :
    (Store.CompleteTask ⟨[⟨1, "buy milk", false, 7⟩], 1⟩ 1 true none).1 = .ok () ∧
      Store.CompleteTask ⟨[⟨1, "buy milk", false, 7⟩], 1⟩ 2 true none =
        (.error "task not found", ⟨[⟨1, "buy milk", false, 7⟩], 1⟩) :=
  ⟨((C4_CompleteTask_sets_flag_or_not_found ⟨[⟨1, "buy milk", false, 7⟩], 1⟩ 1 true
      none none rfl rfl).1 ⟨⟨1, "buy milk", false, 7⟩, by decide, by decide⟩).1,
    (C4_CompleteTask_sets_flag_or_not_found ⟨[⟨1, "buy milk", false, 7⟩], 1⟩ 2 true
      none none rfl rfl).2 (by decide)⟩

/-- C5, the claim as stated fails: it holds for no database that fails. When `Exec`
fails, `DeleteTask` of the id of an existing task returns the wrapped storage error
and the task stays in the table. -/
theorem C5_DeleteTask_counterexample :
    Store.DeleteTask ⟨[⟨1, "buy milk", false, 7⟩], 1⟩ 1 (some (.exec "connection refused")) =
      (.error "failed to delete task: connection refused",
        ⟨[⟨1, "buy milk", false, 7⟩], 1⟩) ∧
    ¬ (∀ (s : DB) (id : Int) (fault : Option Fault),
      (∃ t ∈ s.rows, t.ID = id) → (Store.DeleteTask s id fault).1 = .ok ()) := by
  refine ⟨by decide, ?_⟩
  intro hall
  have h := hall ⟨[⟨1, "buy milk", false, 7⟩], 1⟩ 1 (some (.exec "connection refused"))
    ⟨⟨1, "buy milk", false, 7⟩, by decide, by decide⟩
  revert h
  decide

/-- C5, amended. When the database does not fail during the two deletes
(`fault = none`, `fault2 = none`) nor during the listings (`qf = none`),
`DeleteTask` of the id of an existing task returns no error; `ListTasks` then
returns what it returned before without the tasks of that id, so none has the id and
every other task is there unchanged; a second `DeleteTask` of the id returns the
error "task not found". -/
theorem C5_DeleteTask_removes_then_not_found (s : DB) (id : Int)
    (fault fault2 : Option Fault) (qf : Option QueryFault)
    (hdb : fault = none) (hdb2 : fault2 = none) (hq : qf = none)
    (h : ∃ t ∈ s.rows, t.ID = id) :
    (Store.DeleteTask s id fault).1 = .ok () ∧
      (∃ before after, Store.ListTasks s qf = .ok before ∧
        Store.ListTasks (Store.DeleteTask s id fault).2 qf = .ok after ∧
        (∀ t ∈ after.toList, t.ID ≠ id) ∧
        after.toList = before.toList.filter (fun t => ¬ t.ID = id)) ∧
      Store.DeleteTask (Store.DeleteTask s id fault).2 id fault2 =
        (.error "task not found", (Store.DeleteTask s id fault).2) := by
  subst hdb hdb2 hq
  obtain ⟨t, ht, hid⟩ := h
  have hm : ¬ s.matching id = 0 := by
    rw [matching_eq_zero]; push_neg; exact ⟨t, ht, hid⟩
  rw [DeleteTask_none]
  refine ⟨by simp [hm], ?_, ?_⟩
  · obtain ⟨before, hb, hbl⟩ := ListTasks_none_toList s
    obtain ⟨after, ha, hal⟩ := ListTasks_none_toList (s.remove id)
    refine ⟨before, after, hb, ha, ?_, ?_⟩
    · intro x hx
      rw [hal, select_remove] at hx
      simpa using (List.mem_filter.mp hx).2
    · rw [hal, hbl, select_remove]
  · simp only
    rw [DeleteTask_none, if_pos (matching_remove s id), remove_remove]

/-- C5 at a table with two tasks, the first of which is deleted, and deleted again. -/
theorem C5_DeleteTask_removes_then_not_found_witness :
    (Store.DeleteTask ⟨[⟨2, "walk dog", false, 9⟩, ⟨1, "buy milk", false, 7⟩], 2⟩ 1 none).1 =
        .ok () ∧
      Store.DeleteTask
          (Store.DeleteTask ⟨[⟨2, "walk dog", false, 9⟩, ⟨1, "buy milk", false, 7⟩], 2⟩ 1
            none).2 1 none =
        (.error "task not found",
          (Store.DeleteTask ⟨[⟨2, "walk dog", false, 9⟩, ⟨1, "buy milk", false, 7⟩], 2⟩ 1
            none).2) :=
  have h := C5_DeleteTask_removes_then_not_found
    ⟨[⟨2, "walk dog", false, 9⟩, ⟨1, "buy milk", false, 7⟩], 2⟩ 1 none none none rfl rfl rfl
    ⟨⟨1, "buy milk", false, 7⟩, by decide, by decide⟩
  ⟨h.1, h.2.2⟩

/-- The table keeps the primary key and the non-empty descriptions through a call. -/
theorem Call_run_invariant (s : DB) (call : Call)
    (h : (s.rows.map (fun t => t.ID)).Nodup ∧ ∀ t ∈ s.rows, t.Description ≠ "") :
    ((call.run s).rows.map (fun t => t.ID)).Nodup ∧
      ∀ t ∈ (call.run s).rows, t.Description ≠ "" := by
  cases call with
  | add d now f =>
    simp only [Call.run]
    by_cases hd : d = ""
    · simpa [Store.AddTask, hd] using h
    · have hstate : (Store.AddTask s d now f).2 = (s.insertReturning d false now f).2 := by
        unfold Store.AddTask
        rw [if_neg hd]
        cases hr : s.insertReturning d false now f with
        | mk r s2 => cases r <;> rfl
      have hins : (s.insert d false now).2 = s ∨
          (s.insert d false now).2 = { s with seq := s.seq + 1 } ∨
          ((s.insert d false now).2 =
              { rows := ⟨((s.seq + 1 : Nat) : Int), d, false, now⟩ :: s.rows, seq := s.seq + 1 } ∧
            ∀ t ∈ s.rows, t.ID ≠ ((s.seq + 1 : Nat) : Int)) := by
        unfold DB.insert
        simp only
        by_cases h1 : maxSerial < s.seq + 1
        · left; rw [if_pos h1]
        · rw [if_neg h1]
          by_cases h2 : s.rows.any (fun r => r.ID = ((s.seq + 1 : Nat) : Int)) = true
          · right; left; rw [if_pos h2]
          · right; right
            rw [if_neg h2]
            refine ⟨rfl, ?_⟩
            intro t ht heq
            apply h2
            simp only [List.any_eq_true, decide_eq_true_eq]
            exact ⟨t, ht, heq⟩
      have hret : (s.insertReturning d false now f).2 = s ∨
          (s.insertReturning d false now f).2 = (s.insert d false now).2 := by
        unfold DB.insertReturning
        cases f with
        | none => right; rfl
        | some f =>
          cases f with
          | exec e => left; rfl
          | result e =>
            right
            simp only
            split <;> rename_i heq <;> rw [heq]
      rw [hstate]
      rcases hret with hr | hr
      · rw [hr]; exact h
      · rw [hr]
        rcases hins with hi | hi | ⟨hi, hfree⟩
        · rw [hi]; exact h
        · rw [hi]; exact h
        · rw [hi]
          constructor
          · simp only [List.map_cons, List.nodup_cons]
            refine ⟨?_, h.1⟩
            intro hmem
            obtain ⟨t, ht, heq⟩ := List.mem_map.mp hmem
            exact hfree t ht heq
          · intro t ht
            rcases List.mem_cons.mp ht with rfl | ht
            · exact hd
            · exact h.2 t ht
  | complete id c f =>
    simp only [Call.run]
    rcases CompleteTask_state s id c f with hs | hs
    · rw [hs]; exact h
    · rw [hs, (setCompleted_rows s c id).1]
      constructor
      · have : (s.rows.map (DB.setRow c id)).map (fun t => t.ID) = s.rows.map (fun t => t.ID) := by
          rw [List.map_map]
          apply List.map_congr_left
          intro t _
          exact (setRow_fields c id t).1
        rw [this]; exact h.1
      · intro t ht
        obtain ⟨y, hy, rfl⟩ := List.mem_map.mp ht
        rw [(setRow_fields c id y).2.1]
        exact h.2 y hy
  | delete id f =>
    simp only [Call.run]
    rcases DeleteTask_state s id f with hs | hs
    · rw [hs]; exact h
    · rw [hs]
      constructor
      · exact h.1.sublist ((List.filter_sublist _).map _)
      · intro t ht
        exact h.2 t (List.mem_filter.mp ht).1

/-- C8. In every state reached from an empty table by a sequence of `AddTask`,
`CompleteTask` and `DeleteTask` calls, whatever each returned and whatever the
database did, the ids of the stored tasks are pairwise distinct and no stored task
has an empty description. -/
theorem C8_reachable_unique_ids_nonempty_descriptions (s0 : DB) (calls : List Call)
    (hempty : s0.rows = []) :
    ((runCalls s0 calls).rows.map (fun t => t.ID)).Nodup ∧
      ∀ t ∈ (runCalls s0 calls).rows, t.Description ≠ "" := by
  have hgen : ∀ (calls : List Call) (s : DB),
      ((s.rows.map (fun t => t.ID)).Nodup ∧ ∀ t ∈ s.rows, t.Description ≠ "") →
      (((runCalls s calls).rows.map (fun t => t.ID)).Nodup ∧
        ∀ t ∈ (runCalls s calls).rows, t.Description ≠ "") := by
    intro calls
    induction calls with
    | nil => intro s h; exact h
    | cons call rest ih =>
      intro s h
      exact ih (call.run s) (Call_run_invariant s call h)
  exact hgen calls s0 (by simp [hempty])

/-- C8 at a run that adds two tasks, fails to add an empty one, completes one and
deletes the other. -/
theorem C8_reachable_unique_ids_nonempty_descriptions_witness :
    ((runCalls ⟨[], 0⟩ [.add "buy milk" 5 none, .add "walk dog" 9 none, .add "" 10 none,
        .complete 1 true none, .delete 2 none]).rows.map (fun t => t.ID)).Nodup :=
  (C8_reachable_unique_ids_nonempty_descriptions ⟨[], 0⟩
    [.add "buy milk" 5 none, .add "walk dog" 9 none, .add "" 10 none,
      .complete 1 true none, .delete 2 none] rfl).1

/-- C7. The status of `UpdateTask`, for every request and whatever the database
does: 400 when the id of the path cannot be parsed; otherwise 400 when the body does
not decode; otherwise 404 exactly when the database worked and no row has the id
(the store returned "task not found"), 500 exactly when the database failed (no
wrapped storage error is taken for not-found), and 204 exactly when the store
returned no error, then with an empty body. `DeleteTask` has the same table without
the body. Every response other than 204 has the body of `writeError`, an object
`{"error": message}`. -/
theorem C7_UpdateTask_DeleteTask_status_table (enc : Encoder) (s : DB) (path : String)
    (decoded : Except String Bool) (fault : Option Fault) :
    (∀ e, extractID path = .error e →
      (Handler.UpdateTask enc s path decoded fault).1.code = 400 ∧
      (Handler.DeleteTask enc s path fault).1.code = 400) ∧
    (∀ id e, extractID path = .ok id → decoded = .error e →
      (Handler.UpdateTask enc s path decoded fault).1.code = 400) ∧
    (∀ id c, extractID path = .ok id → decoded = .ok c →
      ((Handler.UpdateTask enc s path decoded fault).1.code = 404 ↔
        fault = none ∧ ∀ t ∈ s.rows, t.ID ≠ id) ∧
      ((Handler.UpdateTask enc s path decoded fault).1.code = 404 ↔
        (Store.CompleteTask s id c fault).1 = .error "task not found") ∧
      ((Handler.UpdateTask enc s path decoded fault).1.code = 500 ↔ fault ≠ none) ∧
      ((Handler.UpdateTask enc s path decoded fault).1.code = 500 ↔
        ∃ err, (Store.CompleteTask s id c fault).1 = .error err ∧ err ≠ "task not found") ∧
      ((Handler.UpdateTask enc s path decoded fault).1.code = 204 ↔
        (Store.CompleteTask s id c fault).1 = .ok ()) ∧
      ((Handler.UpdateTask enc s path decoded fault).1.code = 204 →
        (Handler.UpdateTask enc s path decoded fault).1.body = "")) ∧
    (∀ id, extractID path = .ok id →
      ((Handler.DeleteTask enc s path fault).1.code = 404 ↔
        fault = none ∧ ∀ t ∈ s.rows, t.ID ≠ id) ∧
      ((Handler.DeleteTask enc s path fault).1.code = 404 ↔
        (Store.DeleteTask s id fault).1 = .error "task not found") ∧
      ((Handler.DeleteTask enc s path fault).1.code = 500 ↔ fault ≠ none) ∧
      ((Handler.DeleteTask enc s path fault).1.code = 500 ↔
        ∃ err, (Store.DeleteTask s id fault).1 = .error err ∧ err ≠ "task not found") ∧
      ((Handler.DeleteTask enc s path fault).1.code = 204 ↔
        (Store.DeleteTask s id fault).1 = .ok ()) ∧
      ((Handler.DeleteTask enc s path fault).1.code = 204 →
        (Handler.DeleteTask enc s path fault).1.body = "")) ∧
    ((Handler.UpdateTask enc s path decoded fault).1.code ≠ 204 → ∃ message,
      (Handler.UpdateTask enc s path decoded fault).1.body = enc.errorObject message ++ "\n" ∧
      (Handler.UpdateTask enc s path decoded fault).1.contentType = some "application/json") ∧
    ((Handler.DeleteTask enc s path fault).1.code ≠ 204 → ∃ message,
      (Handler.DeleteTask enc s path fault).1.body = enc.errorObject message ++ "\n" ∧
      (Handler.DeleteTask enc s path fault).1.contentType = some "application/json") := by
  have hC : ∀ id c, (fault = none → (Store.CompleteTask s id c fault).1 =
        if s.matching id = 0 then .error "task not found" else .ok ()) ∧
      (fault ≠ none → ∃ err, (Store.CompleteTask s id c fault).1 = .error err ∧
        err ≠ "task not found") := by
    intro id c
    rw [CompleteTask_result]
    constructor
    · rintro rfl; rfl
    · intro hf
      cases fault with
      | none => exact absurd rfl hf
      | some f =>
        cases f with
        | exec e => exact ⟨_, rfl, (wrapped_ne_notFound e).1⟩
        | result e => exact ⟨_, rfl, (wrapped_ne_notFound e).2.2⟩
  have hD : ∀ id, (fault = none → (Store.DeleteTask s id fault).1 =
        if s.matching id = 0 then .error "task not found" else .ok ()) ∧
      (fault ≠ none → ∃ err, (Store.DeleteTask s id fault).1 = .error err ∧
        err ≠ "task not found") := by
    intro id
    rw [DeleteTask_result]
    constructor
    · rintro rfl; rfl
    · intro hf
      cases fault with
      | none => exact absurd rfl hf
      | some f =>
        cases f with
        | exec e => exact ⟨_, rfl, (wrapped_ne_notFound e).2.1⟩
        | result e => exact ⟨_, rfl, (wrapped_ne_notFound e).2.2⟩
  have table : ∀ (id : Int) (r : Except String Unit),
      (fault = none → r = if s.matching id = 0 then .error "task not found" else .ok ()) →
      (fault ≠ none → ∃ err, r = .error err ∧ err ≠ "task not found") →
      ((answer enc r).code = 404 ↔ fault = none ∧ ∀ t ∈ s.rows, t.ID ≠ id) ∧
      ((answer enc r).code = 404 ↔ r = .error "task not found") ∧
      ((answer enc r).code = 500 ↔ fault ≠ none) ∧
      ((answer enc r).code = 500 ↔ ∃ err, r = .error err ∧ err ≠ "task not found") ∧
      ((answer enc r).code = 204 ↔ r = .ok ()) ∧
      ((answer enc r).code = 204 → (answer enc r).body = "") := by
    intro id r h1 h2
    obtain ⟨t1, t2, t3, t4, t5, _⟩ := answer_table enc fault (s.matching id) r h1 h2
    refine ⟨?_, ?_, t2, ?_, t4, fun h => (t5 h).1⟩
    · rw [t1, matching_eq_zero]
    · rw [t1]
      constructor
      · rintro ⟨hf, hm⟩
        rw [h1 hf, if_pos hm]
      · intro hr
        by_cases hf : fault = none
        · refine ⟨hf, ?_⟩
          by_contra hm
          rw [h1 hf, if_neg hm] at hr
          cases hr
        · obtain ⟨err, he, hne⟩ := h2 hf
          rw [he] at hr
          injection hr with hr
          exact absurd hr hne
    · rw [t2]
      constructor
      · exact h2
      · rintro ⟨err, he, hne⟩ hf
        have := h1 hf
        rw [he] at this
        split_ifs at this
        · injection this with this
          exact hne this
  have shape : ∀ (id : Int) (r : Except String Unit),
      (fault = none → r = if s.matching id = 0 then .error "task not found" else .ok ()) →
      (fault ≠ none → ∃ err, r = .error err ∧ err ≠ "task not found") →
      ((answer enc r).code ≠ 204 → ∃ message,
        (answer enc r).body = enc.errorObject message ++ "\n" ∧
        (answer enc r).contentType = some "application/json") := by
    intro id r h1 h2
    exact (answer_table enc fault (s.matching id) r h1 h2).2.2.2.2.2
  have w400 := fun m => writeError_fields enc 400 m
  refine ⟨?_, ?_, ?_, ?_, ?_, ?_⟩
  · intro e he
    simp only [Handler.UpdateTask, Handler.DeleteTask, he]
    exact ⟨(w400 _).1, (w400 _).1⟩
  · intro id e hid hdec
    simp only [Handler.UpdateTask, hid, hdec]
    exact (w400 _).1
  · intro id c hid hdec
    subst hdec
    rw [UpdateTask_answer enc s path id c fault hid]
    exact table id _ (hC id c).1 (hC id c).2
  · intro id hid
    rw [DeleteTask_answer enc s path id fault hid]
    exact table id _ (hD id).1 (hD id).2
  · cases hid : extractID path with
    | error e =>
      intro _
      simp only [Handler.UpdateTask, hid]
      exact ⟨_, (w400 _).2⟩
    | ok id =>
      cases decoded with
      | error e =>
        intro _
        simp only [Handler.UpdateTask, hid]
        exact ⟨_, (w400 _).2⟩
      | ok c =>
        rw [UpdateTask_answer enc s path id c fault hid]
        exact shape id _ (hC id c).1 (hC id c).2
  · cases hid : extractID path with
    | error e =>
      intro _
      simp only [Handler.DeleteTask, hid]
      exact ⟨_, (w400 _).2⟩
    | ok id =>
      rw [DeleteTask_answer enc s path id fault hid]
      exact shape id _ (hD id).1 (hD id).2

/-- C7 at a task that is updated, and at a path without a number. -/
theorem C7_UpdateTask_DeleteTask_status_table_witness :
    (Handler.UpdateTask Encoder.quoting ⟨[⟨1, "buy milk", false, 7⟩], 1⟩ "/tasks/1" (.ok true)
        none).1.code = 204 ∧
      (Handler.DeleteTask Encoder.quoting ⟨[⟨1, "buy milk", false, 7⟩], 1⟩ "/tasks/x"
        none).1.code = 400 :=
  ⟨((C7_UpdateTask_DeleteTask_status_table Encoder.quoting ⟨[⟨1, "buy milk", false, 7⟩], 1⟩
      "/tasks/1" (.ok true) none).2.2.1 1 true (by decide) rfl).2.2.2.2.1.mpr (by decide),
    ((C7_UpdateTask_DeleteTask_status_table Encoder.quoting ⟨[⟨1, "buy milk", false, 7⟩], 1⟩
      "/tasks/x" (.ok true) none).1 .ErrSyntax (by decide)).2⟩

/-- C6. With no task in the table, and the database working, `Handler.ListTasks`
answers 200 with the body `null`, not `[]`: `Store.ListTasks` returns the nil slice
it declared, which `encoding/json` writes as `null`. The same holds after the only
task was deleted. -/
theorem C6_ListTasks_empty_table_body_is_null (enc : Encoder) (seq : Nat) :
    Store.ListTasks ⟨[], seq⟩ none = .ok Slice.nil ∧
      (Handler.ListTasks enc ⟨[], seq⟩ none).code = 200 ∧
      (Handler.ListTasks enc ⟨[], seq⟩ none).body = "null\n" ∧
      (Handler.ListTasks enc ⟨[], seq⟩ none).body ≠ "[]\n" ∧
      (Store.DeleteTask (Store.AddTask ⟨[], seq⟩ "buy milk" 7 none).2
        (((seq + 1 : Nat) : Int)) none).2.rows = [] ∧
      (Handler.ListTasks enc (Store.DeleteTask (Store.AddTask ⟨[], seq⟩ "buy milk" 7 none).2
        (((seq + 1 : Nat) : Int)) none).2 none).body = "null\n" := by
  have h0 : ∀ s : DB, s.rows = [] → Store.ListTasks s none = .ok Slice.nil := by
    intro s hs
    rw [ListTasks_none]
    simp [DB.selectOrderByID, hs]
  have hbody : ∀ s : DB, s.rows = [] → (Handler.ListTasks enc s none).code = 200 ∧
      (Handler.ListTasks enc s none).body = "null\n" := by
    intro s hs
    simp [Handler.ListTasks, h0 s hs, Encoder.tasks, ResponseWriter.code,
      ResponseWriter.Encode, ResponseWriter.Write, ResponseWriter.WriteHeader,
      ResponseWriter.SetContentType, ResponseWriter.new]
  have hdel : (Store.DeleteTask (Store.AddTask ⟨[], seq⟩ "buy milk" 7 none).2
      (((seq + 1 : Nat) : Int)) none).2.rows = [] := by
    have hrows : ∀ t ∈ ((Store.AddTask ⟨[], seq⟩ "buy milk" 7 none).2).rows,
        t.ID = ((seq + 1 : Nat) : Int) := by
      unfold Store.AddTask DB.insertReturning DB.insert
      simp only [List.any_nil]
      split_ifs <;> simp
    rw [DeleteTask_none]
    simp only [DB.remove, List.filter_eq_nil_iff, decide_eq_true_eq, not_not]
    exact hrows
  refine ⟨h0 _ rfl, (hbody _ rfl).1, (hbody _ rfl).2, ?_, hdel, (hbody _ hdel).2⟩
  rw [(hbody _ rfl).2]
  decide

/-- C9. `CompleteTask` changes nothing but the completion flag of the matching
task, whatever it returns and whatever the database does: the sequence is as it
was; the table holds as many rows, each with the id, description and timestamp it
had, and the rows of every other id are untouched; the same holds of the listing
that `ListTasks` reads. -/
theorem C9_CompleteTask_frame (s : DB) (id : Int) (c : Bool) (fault : Option Fault) :
    (Store.CompleteTask s id c fault).2.seq = s.seq ∧
      (Store.CompleteTask s id c fault).2.rows.length = s.rows.length ∧
      (Store.CompleteTask s id c fault).2.rows.map
          (fun t => (t.ID, t.Description, t.CreatedAt)) =
        s.rows.map (fun t => (t.ID, t.Description, t.CreatedAt)) ∧
      (Store.CompleteTask s id c fault).2.rows.filter (fun t => ¬ t.ID = id) =
        s.rows.filter (fun t => ¬ t.ID = id) ∧
      (Store.CompleteTask s id c fault).2.selectOrderByID.length =
        s.selectOrderByID.length ∧
      (Store.CompleteTask s id c fault).2.selectOrderByID.map
          (fun t => (t.ID, t.Description, t.CreatedAt)) =
        s.selectOrderByID.map (fun t => (t.ID, t.Description, t.CreatedAt)) ∧
      (Store.CompleteTask s id c fault).2.selectOrderByID.filter (fun t => ¬ t.ID = id) =
        s.selectOrderByID.filter (fun t => ¬ t.ID = id) := by
  rcases CompleteTask_state s id c fault with h | h
  · rw [h]; simp
  · rw [h, select_setCompleted, (setCompleted_rows s c id).1, (setCompleted_rows s c id).2]
    have h1 := map_setRow_frame c id s.rows
    have h2 := map_setRow_frame c id s.selectOrderByID
    exact ⟨rfl, by simp, h1.1, h1.2, by simp, h2.1, h2.2⟩

/-- C10, the claim as stated fails: the decimal representation of 2^63, an integer,
is not parsed; `extractID` reports a range error. -/
theorem C10_extractID_counterexample :
    decimal 9223372036854775808 = "9223372036854775808" ∧
      extractID ("/tasks/" ++ decimal 9223372036854775808) = .error .ErrRange ∧
      ¬ (∀ n : Int, extractID ("/tasks/" ++ decimal n) = .ok n) := by
  have h : extractID ("/tasks/" ++ decimal 9223372036854775808) = .error .ErrRange := by
    rw [extractID_tasks_decimal, Atoi_decimal]
    decide
  refine ⟨by decide, h, ?_⟩
  intro hall
  rw [hall] at h
  cases h

/-- C10, amended. For every integer `n` of the range of a 64-bit `int`,
`extractID` of `/tasks/` followed by the decimal representation of `n` is `n`, with
no error; for every integer outside that range it is a range error. For every path
whose second segment, after the slashes at both ends are trimmed, is missing or is
not a decimal integer, `extractID` returns an error, and `UpdateTask` and
`DeleteTask` answer 400 and leave the database as it was. -/
theorem C10_extractID_parses_int (enc : Encoder) (s : DB) (decoded : Except String Bool)
    (fault : Option Fault) :
    (∀ n : Int, -9223372036854775808 ≤ n → n ≤ 9223372036854775807 →
      extractID ("/tasks/" ++ decimal n) = .ok n) ∧
    (∀ n : Int, n < -9223372036854775808 ∨ 9223372036854775807 < n →
      extractID ("/tasks/" ++ decimal n) = .error .ErrRange) ∧
    (∀ path : String,
      (∀ p, (pathParts path).get? 1 = some p → isDecimalInteger p = false) →
      (∃ e, extractID path = .error e) ∧
      (Handler.UpdateTask enc s path decoded fault).1.code = 400 ∧
      (Handler.UpdateTask enc s path decoded fault).2 = s ∧
      (Handler.DeleteTask enc s path fault).1.code = 400 ∧
      (Handler.DeleteTask enc s path fault).2 = s) := by
  refine ⟨?_, ?_, ?_⟩
  · intro n h1 h2
    rw [extractID_tasks_decimal, Atoi_decimal, if_pos ⟨h1, by omega⟩]
  · intro n h
    rw [extractID_tasks_decimal, Atoi_decimal, if_neg (by omega)]
  · intro path h
    obtain ⟨e, he⟩ := extractID_error_of_not_decimal path h
    have hw := writeError_fields enc 400 "Invalid task ID"
    refine ⟨⟨e, he⟩, ?_, ?_, ?_, ?_⟩ <;>
      simp only [Handler.UpdateTask, Handler.DeleteTask, he, hw.1]

/-- C10 at `/tasks/123`, at the least `int`, and at a path without a second segment. -/
theorem C10_extractID_parses_int_witness :
    extractID ("/tasks/" ++ decimal 123) = .ok 123 ∧
      extractID ("/tasks/" ++ decimal (-9223372036854775808)) = .ok (-9223372036854775808) ∧
      (Handler.DeleteTask Encoder.quoting ⟨[], 0⟩ "/tasks/" none).1.code = 400 :=
  ⟨(C10_extractID_parses_int Encoder.quoting ⟨[], 0⟩ (.ok true) none).1 123
      (by decide) (by decide),
    (C10_extractID_parses_int Encoder.quoting ⟨[], 0⟩ (.ok true) none).1
      (-9223372036854775808) (by decide) (by decide),
    ((C10_extractID_parses_int Encoder.quoting ⟨[], 0⟩ (.ok true) none).2.2 "/tasks/"
      (by decide)).2.2.2.1⟩

end Todo
